import Mathlib

/-!
Verification of the rss-content-processor pipeline (src/rss_processor.py and
src/config.py), shallowly embedded in Lean.  External libraries appear in two
forms: the html.parser text extraction that BeautifulSoup performs for
clean_content is given as a faithful executable model, while dateutil date
parsing, the nltk tokenizers, requests page fetching and feedparser feed
fetching are oracle functions carried in an environment record, since only
their outcomes reach the code under verification.
-/

namespace RSSProc

/-- Python whitespace characters recognised by str.strip and str.split. -/
def isPyWs (c : Char) : Bool :=
  c = ' ' || c = '\t' || c = '\n' || c = '\r' || c = '\x0b' || c = '\x0c'

/-- Remove trailing whitespace, the right half of Python str.strip. -/
def stripRight : List Char → List Char
  | [] => []
  | c :: t => if stripRight t = [] ∧ isPyWs c = true then [] else c :: stripRight t

/-- Python str.strip: drop leading and trailing whitespace. -/
def pyStrip (l : List Char) : List Char := List.dropWhile isPyWs (stripRight l)

/-- Python str.split() with no argument: the maximal runs of non-whitespace
characters, with no empty pieces.  The first list is the input still to scan,
the second the current run held in reverse. -/
def pySplitAux : List Char → List Char → List (List Char)
  | [], acc => if acc = [] then [] else [acc.reverse]
  | c :: rest, acc =>
    if isPyWs c then
      if acc = [] then pySplitAux rest [] else acc.reverse :: pySplitAux rest []
    else pySplitAux rest (c :: acc)

/-- Python str.split() with no argument. -/
def pySplit (l : List Char) : List (List Char) := pySplitAux l []

/-- Python s.split() on a String, as a list of Strings. -/
def pySplitS (s : String) : List String := (pySplit s.data).map String.mk

/-- The named character references the model decodes, a table lookup on the
name read between an ampersand and a semicolon. -/
def entityName (n : List Char) : Option Char :=
  if n = ['l', 't'] then some '<'
  else if n = ['g', 't'] then some '>'
  else if n = ['a', 'm', 'p'] then some '&'
  else if n = ['q', 'u', 'o', 't'] then some '"'
  else none

/-- Character-reference decoding as html.parser applies it to text data
under convert_charrefs, the default that BeautifulSoup uses.  The second
argument is none in plain text and carries the characters read since an
ampersand, in reverse, while a candidate reference is open.  The model
covers the four common named references terminated by a semicolon; an
unrecognised or unterminated reference stays literal text, as html.parser
leaves invalid references untouched. -/
def unescapeAux : List Char → Option (List Char) → List Char
  | [], none => []
  | [], some pend => '&' :: pend.reverse
  | c :: rest, none =>
    if c = '&' then unescapeAux rest (some []) else c :: unescapeAux rest none
  | c :: rest, some pend =>
    if c = ';' then
      match entityName pend.reverse with
      | some d => d :: unescapeAux rest none
      | none => '&' :: (pend.reverse ++ ';' :: unescapeAux rest none)
    else if c = '&' then '&' :: (pend.reverse ++ unescapeAux rest (some []))
    else unescapeAux rest (some (c :: pend))

/-- Decode character references in one run of text data. -/
def unescape (l : List Char) : List Char := unescapeAux l none

/-- True when the character after a literal < opens a markup construct
(start tag, end tag, declaration or processing instruction) under
html.parser; any other character leaves the < as ordinary text data. -/
def tagStartChar (c : Char) : Bool := c.isAlpha || c = '/' || c = '!' || c = '?'

/-- Emit the pending text buffer (held in reverse) as one text node,
decoding character references, and dropping the node when it is empty. -/
def flushText (acc : List Char) : List (List Char) :=
  if acc = [] then [] else [unescape acc.reverse]

/-- Model of html.parser tokenisation as driven by BeautifulSoup: the
sequence of text nodes of the document, in order.  The Bool argument is
true while inside a markup construct, whose characters are buffered only so
that an unterminated construct at end of input can be emitted as literal
data, which is what html.parser does when the stream is closed.  A bare <
that does not open a construct is emitted as its own one-character data
node, again following html.parser.  Markup constructs are taken to end at
the first >, a simplification of comment and quoted-attribute handling that
none of the verified inputs exercises. -/
def scanAux : List Char → Bool → List Char → List (List Char)
  | [], true, acc => [acc.reverse]
  | [], false, acc => flushText acc
  | c :: rest, true, acc =>
    if c = '>' then scanAux rest false []
    else scanAux rest true (c :: acc)
  | c :: rest, false, acc =>
    if c = '<' then
      match rest with
      | [] => flushText acc ++ [['<']]
      | d :: _ =>
        if tagStartChar d then flushText acc ++ scanAux rest true ['<']
        else flushText acc ++ ['<'] :: scanAux rest false []
    else scanAux rest false (c :: acc)

/-- The text nodes of a document. -/
def textNodes (l : List Char) : List (List Char) := scanAux l false []

/-- Join pieces with a single space, the separator clean_content passes to
get_text. -/
def joinSpace : List (List Char) → List Char
  | [] => []
  | [t] => t
  | t :: ts => t ++ ' ' :: joinSpace ts

/-- BeautifulSoup get_text(separator, strip=True): strip each text node,
drop the nodes that become empty, join the rest with the separator. -/
def getTextStrip (nodes : List (List Char)) : List Char :=
  joinSpace ((nodes.map pyStrip).filter fun t => !t.isEmpty)

/-- clean_content (src/rss_processor.py, lines 216 to 225): parse the
content with html.parser and return get_text with a single-space separator
and strip=True.  The model parser is total, so the except branch of the
source, which would return the original content on an internal parse
failure, is unreachable here. -/
def clean_content (s : String) : String := String.mk (getTextStrip (textNodes s.data))

/-- A feed entry as the processor reads it through article.get: each field
is present or absent.  The content field models article.content[0].value,
the first content item feedparser exposes whenever the content key is
present. -/
structure Entry where
  title : Option String := none
  link : Option String := none
  published : Option String := none
  pubDate : Option String := none
  updated : Option String := none
  content : Option String := none
  summary : Option String := none
  description : Option String := none
  deriving DecidableEq

/-- A located content container: the get_text(strip=True) string of each
block-level descendant (p, h1 to h6, li, div) in document order, collected
after the unwanted subtrees (script, style, nav, header, footer, aside,
iframe, noscript, form and the interactive controls) and the named
non-content blocks (advertisement, social-share, related-articles,
news-category-list, comments, sidebar) have been decomposed. -/
structure Element where
  texts : List String

/-- The parsed page: soup.find over a tag name and an attribute filter. -/
structure Soup where
  find : String → List (String × String) → Option Element

/-- Outcome of handling the response body: a generic exception somewhere in
the HTML processing, or a parsed soup. -/
inductive HtmlStage where
  | exc
  | parsed (soup : Soup)

/-- Outcome of requests.get plus raise_for_status for an entry: a
RequestException (network error, timeout, or non-2xx status), or a response
body in some processing state. -/
inductive PageFetch where
  | requestExc
  | ok (h : HtmlStage)

/-- The environment: the configuration constants of src/config.py, the
processor date window fixed in the constructor (start_date is the calendar
date one day before end_date, so start_date is at most end_date), and the
external libraries as oracles.  Calendar dates are integers, the value of a
datetime .date() under a fixed day numbering. -/
structure Env where
  feeds : List String
  start_date : Int
  end_date : Int
  parse_date : String → Option Int
  sent_tokenize : String → List String
  word_tokenize : String → List String
  fetch_page : Entry → PageFetch
  fetch_feed : String → Option (List Entry)
  now_date_str : String
  now_iso : String
  min_article_length : Nat
  max_articles_per_feed : Nat

/-- is_article_from_yesterday (lines 52 to 82).  The date string is read as
article.get(published, article.get(pubDate, article.get(updated))); a
missing value and the empty string are both falsy and rejected; dateutil
parsing is the parse_date oracle, which returns none when the parser
raises.  The parsed value is compared as a calendar date against the
configured window. -/
def is_article_from_yesterday (env : Env) (article : Entry) : Bool :=
  match Option.orElse article.published fun _ =>
        Option.orElse article.pubDate fun _ => article.updated with
  | none => false
  | some pub_date =>
    if pub_date = "" then false
    else
      match env.parse_date pub_date with
      | none => false
      | some article_date =>
        decide (article_date = env.start_date ∧
          env.start_date ≤ article_date ∧ article_date ≤ env.end_date)

/-- The feed-embedded fallback chain (lines 193 to 199, repeated verbatim
at lines 205 to 211): the rich content field, else summary, else
description, else the empty string. -/
def feedFallback (article : Entry) : String :=
  match article.content with
  | some v => v
  | none =>
    match article.summary with
    | some s => s
    | none =>
      match article.description with
      | some d => d
      | none => ""

/-- The ordered content selectors of lines 123 to 153, each a tag name with
an attribute filter, tried first to last. -/
def selectors : List (String × List (String × String)) := [
  ("article", [("class_", "article-content")]),
  ("article", [("class_", "content")]),
  ("article", [("class_", "post-content")]),
  ("article", [("class_", "entry-content")]),
  ("article", [("class_", "article-body")]),
  ("article", [("class_", "story-content")]),
  ("div", [("class_", "article-content")]),
  ("div", [("class_", "content")]),
  ("div", [("class_", "post-content")]),
  ("div", [("class_", "entry-content")]),
  ("div", [("class_", "article-body")]),
  ("div", [("class_", "story-content")]),
  ("div", [("class_", "article-text")]),
  ("div", [("class_", "article-main")]),
  ("div", [("class_", "main-content")]),
  ("div", [("class_", "layout-components-group article-content"), ("data-v-28650198", "")]),
  ("div", [("class_", "layout-components-group article-content")]),
  ("main", []),
  ("article", []),
  ("div", [("id", "content")]),
  ("div", [("id", "article-content")]),
  ("div", [("id", "main-content")])]

/-- Lines 172 to 180: keep each collected text that is non-empty and longer
than ten characters, join the survivors with single spaces. -/
def collect_text (el : Element) : String :=
  String.intercalate " " (el.texts.filter fun t => decide (t ≠ "" ∧ t.length > 10))

/-- extract_article_content (lines 98 to 214): a falsy link, that is a
missing or empty link string, returns empty before any fetch; a
RequestException during the fetch falls back to the feed content; any
other exception during HTML handling returns empty; otherwise the first
matching selector wins and its collected text is accepted only when
non-empty and longer than fifty split words, else the feed fallback is
used. -/
def extract_article_content (env : Env) (article : Entry) : String :=
  match article.link with
  | none => ""
  | some link =>
    if link = "" then ""
    else
    match env.fetch_page article with
    | PageFetch.requestExc => feedFallback article
    | PageFetch.ok HtmlStage.exc => ""
    | PageFetch.ok (HtmlStage.parsed soup) =>
      match List.findSome? (fun sel => soup.find sel.1 sel.2) selectors with
      | some el =>
        let text_content := collect_text el
        if text_content ≠ "" ∧ (pySplitS text_content).length > 50 then text_content
        else feedFallback article
      | none => feedFallback article

/-- The basic_stats mapping of analyze_content. -/
structure BasicStats where
  word_count : Nat
  sentence_count : Nat
  avg_words_per_sentence : ℚ
  deriving DecidableEq

/-- analyze_content (lines 227 to 267): none models the empty analysis
mapping; the four configuration-gated extension blocks of the source are
no-ops and add nothing to the mapping.  Python float division on these
list lengths is modelled over the rationals. -/
def analyze_content (env : Env) (content : String) : Option BasicStats :=
  if content = "" ∨ (pySplitS content).length < env.min_article_length then none
  else
    let sentences := env.sent_tokenize content
    let words := env.word_tokenize content
    some {
      word_count := words.length
      sentence_count := sentences.length
      avg_words_per_sentence :=
        if sentences ≠ [] then (words.length : ℚ) / (sentences.length : ℚ) else 0 }

/-- The metadata block assembled at lines 293 to 300. -/
structure Metadata where
  processed_date : String
  word_count : Nat
  sentence_count : Nat
  unique_words : Nat
  language : String
  difficulty_level : String
  deriving DecidableEq

/-- The persisted article record assembled at lines 286 to 301. -/
structure Article where
  title : String
  link : String
  published : String
  feed_url : String
  content : String
  analysis : Option BasicStats
  metadata : Metadata
  deriving DecidableEq

/-- process_article (lines 269 to 307): extract, clean, discard when the
cleaned content is empty, analyze, assemble. -/
def process_article (env : Env) (article : Entry) (feed_url : String) : Option Article :=
  let content := extract_article_content env article
  let cleaned_content := clean_content content
  if cleaned_content = "" then none
  else
    some {
      title := article.title.getD ""
      link := article.link.getD ""
      published := article.published.getD ""
      feed_url := feed_url
      content := cleaned_content
      analysis := analyze_content env cleaned_content
      metadata := {
        processed_date := env.now_iso
        word_count := (pySplitS cleaned_content).length
        sentence_count := (env.sent_tokenize cleaned_content).length
        unique_words := ((pySplitS cleaned_content.toLower).eraseDups).length
        language := "en"
        difficulty_level := "medium" } }

/-- The current day batch file: absent, present with content on which
json.load raises, or present with a JSON array of articles. -/
inductive FileState where
  | absent
  | corrupt
  | good (articles : List Article)
  deriving DecidableEq

/-- save_article (lines 309 to 336): load the existing array, where a
missing file and a JSONDecodeError both start from the empty list, append
the new article, write the whole array back. -/
def save_article (st : FileState) (article_data : Article) : FileState :=
  let existing_articles :=
    match st with
    | FileState.absent => []
    | FileState.corrupt => []
    | FileState.good l => l
  FileState.good (existing_articles ++ [article_data])

/-- The articles json.load reads back from the batch file. -/
def FileState.articles : FileState → List Article
  | FileState.good l => l
  | _ => []

/-- The per-feed entry loop of process_feeds (lines 371 to 385): stop at
the per-feed cap, gate each entry on the date filter, save every processed
article and count it. -/
def process_entries (env : Env) (feed_url : String) :
    List Entry → Nat → FileState → FileState
  | [], _, st => st
  | entry :: rest, articles_processed, st =>
    if env.max_articles_per_feed ≤ articles_processed then st
    else if is_article_from_yesterday env entry = false then
      process_entries env feed_url rest articles_processed st
    else
      match process_article env entry feed_url with
      | none => process_entries env feed_url rest articles_processed st
      | some article_data =>
        process_entries env feed_url rest (articles_processed + 1)
          (save_article st article_data)

/-- The feed loop of process_feeds (lines 359 to 392) acting on the batch
file state; a feed whose fetch fails or parses as malformed contributes
nothing.  The final cleanup_old_files call acts on the directory listing
and is modelled separately. -/
def process_feed_list (env : Env) : List String → FileState → FileState
  | [], st => st
  | feed_url :: rest, st =>
    match env.fetch_feed feed_url with
    | none => process_feed_list env rest st
    | some entries =>
      process_feed_list env rest (process_entries env feed_url entries 0 st)

/-- process_feeds over the batch file state. -/
def process_feeds (env : Env) (st : FileState) : FileState :=
  process_feed_list env env.feeds st

/-- A file name matched by the glob pattern for JSON files. -/
def isJsonFile (f : String) : Bool := f.endsWith ".json"

/-- The combined batch file name for the processing day (line 313 and line
346). -/
def combinedFileName (env : Env) : String := "articles_" ++ env.now_date_str ++ ".json"

/-- cleanup_old_files (lines 338 to 357) on the directory listing: unlink
every JSON file other than the combined file of the current day. -/
def cleanup_old_files (env : Env) (dir : List String) : List String :=
  dir.filter fun f => !(isJsonFile f) || f == combinedFileName env

/-- An oracle environment with inert defaults, specialised per witness. -/
def baseEnv : Env := {
  feeds := []
  start_date := 0
  end_date := 1
  parse_date := fun _ => none
  sent_tokenize := fun _ => []
  word_tokenize := fun _ => []
  fetch_page := fun _ => PageFetch.requestExc
  fetch_feed := fun _ => none
  now_date_str := "20261011"
  now_iso := "2026-10-11T00:00:00"
  min_article_length := 100
  max_articles_per_feed := 50 }

theorem dropWhile_isPyWs_idem (p : Char → Bool) (l : List Char) :
    List.dropWhile p (List.dropWhile p l) = List.dropWhile p l := by
  induction l with
  | nil => rfl
  | cons c t ih =>
    by_cases h : p c = true
    · simp only [List.dropWhile_cons, if_pos h]
      exact ih
    · simp [List.dropWhile_cons, if_neg h, h]

theorem stripRight_idem (l : List Char) : stripRight (stripRight l) = stripRight l := by
  induction l with
  | nil => rfl
  | cons c t ih =>
    by_cases h : stripRight t = [] ∧ isPyWs c = true
    · have h1 : stripRight (c :: t) = [] := by simp only [stripRight, if_pos h]
      rw [h1]
      rfl
    · have h1 : stripRight (c :: t) = c :: stripRight t := by
        simp only [stripRight, if_neg h]
      rw [h1]
      have h2 : ¬(stripRight (stripRight t) = [] ∧ isPyWs c = true) := by
        rw [ih]; exact h
      simp only [stripRight, if_neg h2, ih]
      rw [if_neg h]

theorem stripRight_fix_of_fix (p : Char → Bool) (l : List Char) (h : stripRight l = l) :
    stripRight (List.dropWhile p l) = List.dropWhile p l := by
  induction l with
  | nil => rfl
  | cons c t ih =>
    have ht : stripRight t = t := by
      by_cases hc : stripRight t = [] ∧ isPyWs c = true
      · have h0 : stripRight (c :: t) = [] := by simp only [stripRight, if_pos hc]
        rw [h] at h0
        cases h0
      · have h1 : stripRight (c :: t) = c :: stripRight t := by
          simp only [stripRight, if_neg hc]
        rw [h] at h1
        injection h1 with _ h2
        exact h2.symm
    by_cases hp : p c = true
    · rw [List.dropWhile_cons, if_pos hp]
      exact ih ht
    · rw [List.dropWhile_cons, if_neg hp]
      exact h

theorem pyStrip_idem (l : List Char) : pyStrip (pyStrip l) = pyStrip l := by
  unfold pyStrip
  rw [stripRight_fix_of_fix isPyWs (stripRight l) (stripRight_idem l),
    dropWhile_isPyWs_idem]

theorem stripRight_sublist (l : List Char) : List.Sublist (stripRight l) l := by
  induction l with
  | nil => exact List.Sublist.refl _
  | cons c t ih =>
    by_cases h : stripRight t = [] ∧ isPyWs c = true
    · simp only [stripRight, if_pos h]
      exact List.nil_sublist _
    · simp only [stripRight, if_neg h]
      exact List.Sublist.cons₂ c ih

theorem pyStrip_mem {c : Char} {l : List Char} (h : c ∈ pyStrip l) : c ∈ l :=
  (stripRight_sublist l).subset ((List.dropWhile_sublist _).subset h)

theorem unescape_eq_self (l : List Char) (h : ∀ c ∈ l, c ≠ '&') : unescape l = l := by
  unfold unescape
  induction l with
  | nil => rfl
  | cons c t ih =>
    have hc : c ≠ '&' := h c (List.mem_cons_self c t)
    have ht := ih fun d hd => h d (List.mem_cons_of_mem c hd)
    simp only [unescapeAux, if_neg hc]
    rw [ht]

theorem scanAux_text (l : List Char) (acc : List Char) (h : ∀ c ∈ l, c ≠ '<') :
    scanAux l false acc = flushText (l.reverse ++ acc) := by
  induction l generalizing acc with
  | nil => rfl
  | cons c t ih =>
    have hc : c ≠ '<' := h c (List.mem_cons_self c t)
    have h1 : scanAux (c :: t) false acc = scanAux t false (c :: acc) := by
      simp only [scanAux]
      rw [if_neg hc]
    rw [h1, ih (c :: acc) fun d hd => h d (List.mem_cons_of_mem c hd)]
    congr 1
    simp [List.append_assoc]

theorem textNodes_plain (l : List Char) (h : ∀ c ∈ l, c ≠ '<') :
    textNodes l = if l = [] then [] else [unescape l] := by
  unfold textNodes
  rw [scanAux_text l [] h]
  simp [flushText, List.reverse_eq_nil_iff]

theorem getTextStrip_single (x : List Char) : getTextStrip [x] = pyStrip x := by
  unfold getTextStrip
  by_cases hp : (pyStrip x).isEmpty = true
  · have hx : pyStrip x = [] := List.isEmpty_iff.mp hp
    simp [List.filter_cons, hx, joinSpace]
  · simp [List.filter_cons, hp, joinSpace]

theorem clean_content_plain (s : String) (h : ∀ c ∈ s.data, c ≠ '<' ∧ c ≠ '&') :
    clean_content s = String.mk (pyStrip s.data) := by
  unfold clean_content
  rw [textNodes_plain s.data fun c hc => (h c hc).1]
  by_cases hs : s.data = []
  · rw [if_pos hs, hs]
    rfl
  · rw [if_neg hs, unescape_eq_self s.data fun c hc => (h c hc).2,
      getTextStrip_single]

theorem flushText_of_ne (l : List Char) (h : l ≠ []) :
    flushText l.reverse = [unescape l] := by
  unfold flushText
  rw [if_neg (by simpa [List.reverse_eq_nil_iff] using h), List.reverse_reverse]

theorem scanAux_text_tag (a : List Char) (d : Char) (rest : List Char) (acc : List Char)
    (ha : ∀ c ∈ a, c ≠ '<') (hd : tagStartChar d = true) :
    scanAux (a ++ '<' :: d :: rest) false acc =
      flushText (a.reverse ++ acc) ++ scanAux (d :: rest) true ['<'] := by
  induction a generalizing acc with
  | nil => simp [scanAux, hd]
  | cons c t ih =>
    have hc : c ≠ '<' := ha c (List.mem_cons_self c t)
    have h1 : scanAux (c :: (t ++ '<' :: d :: rest)) false acc
        = scanAux (t ++ '<' :: d :: rest) false (c :: acc) := by
      simp only [scanAux]
      rw [if_neg hc]
    rw [List.cons_append, h1, ih (c :: acc) fun x hx => ha x (List.mem_cons_of_mem c hx)]
    congr 2
    simp [List.append_assoc]

theorem getTextStrip_pair (x y : List Char) (hx : pyStrip x ≠ []) (hy : pyStrip y ≠ []) :
    getTextStrip [x, y] = pyStrip x ++ ' ' :: pyStrip y := by
  have h1 : (pyStrip x).isEmpty = false := by
    rw [Bool.eq_false_iff, Ne, List.isEmpty_iff]
    exact hx
  have h2 : (pyStrip y).isEmpty = false := by
    rw [Bool.eq_false_iff, Ne, List.isEmpty_iff]
    exact hy
  simp [getTextStrip, List.filter_cons, h1, h2, joinSpace]

/-- C3 counterexample: clean_content is not idempotent on the code.  On
this input the character references decode to a bold tag held as literal
text, and a second pass parses that text as markup and strips it. -/
theorem cleaner_not_idempotent :
    clean_content (clean_content "&lt;b&gt;hi") ≠ clean_content "&lt;b&gt;hi" := by decide

/-- C3 (amended): clean_content is idempotent on every input string that
contains no angle-bracket open character and no ampersand, including the
empty string; the counterexample shows that idempotence fails in general,
because a decoded character reference can re-parse as markup on the second
pass. -/
theorem cleaner_idempotent_plain (s : String)
    (h : ∀ c ∈ s.data, c ≠ '<' ∧ c ≠ '&') :
    clean_content (clean_content s) = clean_content s := by
  have h1 := clean_content_plain s h
  have h2 : ∀ c ∈ (clean_content s).data, c ≠ '<' ∧ c ≠ '&' := by
    rw [h1]
    intro c hc
    exact h c (pyStrip_mem hc)
  rw [clean_content_plain _ h2, h1]
  exact congrArg String.mk (pyStrip_idem s.data)

/-- Witness for the amended C3 theorem at a concrete plain-text input. -/
theorem cleaner_idempotent_plain_witness :
    (∀ c ∈ ("hello  world" : String).data, c ≠ '<' ∧ c ≠ '&') ∧
      clean_content (clean_content "hello  world") = clean_content "hello  world" :=
  ⟨by decide, cleaner_idempotent_plain "hello  world" (by decide)⟩

/-- C7 counterexample: the run of two spaces inside a single text node
survives clean_content unchanged, so the claim that every whitespace run is
collapsed to a single space fails on the code. -/
theorem cleaner_keeps_inner_runs :
    clean_content "a  b" = "a  b" ∧ ("a  b" : String) ≠ "a b" := by decide

/-- C7 (amended): clean_content strips markup and joins the text runs it
separates with single spaces, trimming each run at both ends, but preserves
whitespace runs inside a text run verbatim instead of collapsing them: on
markup-free runs around a tag, the result is the python strip of each run
joined by one space. -/
theorem cleaner_boundary (a b : String)
    (ha : ∀ c ∈ a.data, c ≠ '<' ∧ c ≠ '&') (hb : ∀ c ∈ b.data, c ≠ '<' ∧ c ≠ '&')
    (ha2 : pyStrip a.data ≠ []) (hb2 : pyStrip b.data ≠ []) :
    clean_content (a ++ "<br>" ++ b) = clean_content a ++ " " ++ clean_content b := by
  have hdata : (a ++ "<br>" ++ b).data = a.data ++ '<' :: 'b' :: 'r' :: '>' :: b.data := by
    rw [String.data_append, String.data_append,
      show ("<br>" : String).data = ['<', 'b', 'r', '>'] from rfl]
    simp [List.append_assoc]
  have ha' : a.data ≠ [] := fun hnil => ha2 (by rw [hnil]; rfl)
  have hb' : b.data ≠ [] := fun hnil => hb2 (by rw [hnil]; rfl)
  apply String.ext
  rw [clean_content_plain a ha, clean_content_plain b hb]
  show getTextStrip (textNodes (a ++ "<br>" ++ b).data) = _
  rw [hdata]
  unfold textNodes
  rw [scanAux_text_tag a.data 'b' ('r' :: '>' :: b.data) [] (fun c hc => (ha c hc).1)
    (by decide)]
  rw [show scanAux ('b' :: 'r' :: '>' :: b.data) true ['<'] = scanAux b.data false []
    from rfl]
  rw [scanAux_text b.data [] fun c hc => (hb c hc).1]
  rw [List.append_nil, List.append_nil, flushText_of_ne a.data ha',
    flushText_of_ne b.data hb']
  rw [unescape_eq_self a.data fun c hc => (ha c hc).2,
    unescape_eq_self b.data fun c hc => (hb c hc).2]
  rw [show ([a.data] ++ [b.data] : List (List Char)) = [a.data, b.data] from rfl]
  rw [getTextStrip_pair a.data b.data ha2 hb2]
  rw [String.data_append, String.data_append]
  simp

/-- Witness for the amended C7 theorem at concrete inputs with interior
whitespace runs and padding around a break tag. -/
theorem cleaner_boundary_witness :
    ((∀ c ∈ ("x  y" : String).data, c ≠ '<' ∧ c ≠ '&') ∧
        (∀ c ∈ (" z w " : String).data, c ≠ '<' ∧ c ≠ '&') ∧
        pyStrip ("x  y" : String).data ≠ [] ∧ pyStrip (" z w " : String).data ≠ []) ∧
      clean_content ("x  y" ++ "<br>" ++ " z w ") =
        clean_content "x  y" ++ " " ++ clean_content " z w " :=
  ⟨⟨by decide, by decide, by decide, by decide⟩,
    cleaner_boundary "x  y" " z w " (by decide) (by decide) (by decide) (by decide)⟩

/-- C1: is_article_from_yesterday returns true exactly when the date
string, read from published, then pubDate, then updated in that priority,
parses to the calendar date equal to the configured start date; a missing
field, an empty or unparseable string, and any other parsed date give
false.  The range hypothesis holds by construction, since start_date is
one day before end_date, and a permissive date parser raises on the empty
string. -/
theorem date_filter_iff (env : Env) (article : Entry)
    (hrange : env.start_date ≤ env.end_date) (hempty : env.parse_date "" = none) :
    (is_article_from_yesterday env article = true ↔
      ∃ s, (Option.orElse article.published fun _ =>
          Option.orElse article.pubDate fun _ => article.updated) = some s ∧
        env.parse_date s = some env.start_date) := by
  unfold is_article_from_yesterday
  cases hch : Option.orElse article.published fun _ =>
      Option.orElse article.pubDate fun _ => article.updated with
  | none => simp
  | some s =>
    show (if s = "" then false
        else match env.parse_date s with
          | none => false
          | some article_date =>
            decide (article_date = env.start_date ∧ env.start_date ≤ article_date ∧
              article_date ≤ env.end_date)) = true ↔
      ∃ s1, some s = some s1 ∧ env.parse_date s1 = some env.start_date
    by_cases hs : s = ""
    · subst hs
      simp [hempty]
    · rw [if_neg hs]
      cases hp : env.parse_date s with
      | none => simp [hp]
      | some d =>
        constructor
        · intro ht
          have h3 := of_decide_eq_true ht
          exact ⟨s, rfl, by rw [hp, h3.1]⟩
        · rintro ⟨s1, hs1, hps1⟩
          injection hs1 with he
          subst he
          rw [hp] at hps1
          injection hps1 with hd
          subst hd
          exact decide_eq_true ⟨rfl, le_refl _, hrange⟩

def envC1 : Env := { baseEnv with
  parse_date := fun s => if s = "Fri, 10 Oct 2026" then some 0 else none }

def entryC1 : Entry := { published := some "Fri, 10 Oct 2026" }

/-- Witness for the C1 theorem at a concrete date string mapped by the
parser oracle to the start date. -/
theorem date_filter_iff_witness :
    (envC1.start_date ≤ envC1.end_date ∧ envC1.parse_date "" = none) ∧
      (is_article_from_yesterday envC1 entryC1 = true ↔
        ∃ s, (Option.orElse entryC1.published fun _ =>
            Option.orElse entryC1.pubDate fun _ => entryC1.updated) = some s ∧
          envC1.parse_date s = some envC1.start_date) :=
  ⟨⟨by decide, by decide⟩, date_filter_iff envC1 entryC1 (by decide) (by decide)⟩

theorem extract_fetch_of_link (env : Env) (article : Entry) (l : String)
    (hl : article.link = some l) (hne : l ≠ "") :
    extract_article_content env article =
      match env.fetch_page article with
      | PageFetch.requestExc => feedFallback article
      | PageFetch.ok HtmlStage.exc => ""
      | PageFetch.ok (HtmlStage.parsed soup) =>
        match List.findSome? (fun sel => soup.find sel.1 sel.2) selectors with
        | some el =>
          let text_content := collect_text el
          if text_content ≠ "" ∧ (pySplitS text_content).length > 50 then text_content
          else feedFallback article
        | none => feedFallback article := by
  unfold extract_article_content
  rw [hl]
  show (if l = "" then "" else _) = _
  rw [if_neg hne]

/-- C2: with a truthy link present, the only case in which a page fetch
happens at all, when the fetch raises a RequestException (network or
timeout error, or a non-2xx status through raise_for_status), or the
parsed page has no selector match, or the matched container collects fewer
than fifty split words, extract_article_content returns the feed-embedded
fallback: the rich content field if present, else summary, else
description, else the empty string. -/
theorem extractor_fallback (env : Env) (article : Entry) (l : String)
    (hl : article.link = some l) (hne : l ≠ "")
    (hfail : env.fetch_page article = PageFetch.requestExc ∨
      ∃ soup, env.fetch_page article = PageFetch.ok (HtmlStage.parsed soup) ∧
        ∀ el, List.findSome? (fun sel => soup.find sel.1 sel.2) selectors = some el →
          (pySplitS (collect_text el)).length < 50) :
    extract_article_content env article = feedFallback article := by
  rw [extract_fetch_of_link env article l hl hne]
  rcases hfail with hreq | ⟨soup, hok, hlt⟩
  · rw [hreq]
  · rw [hok]
    show (match List.findSome? (fun sel => soup.find sel.1 sel.2) selectors with
      | some el =>
        let text_content := collect_text el
        if text_content ≠ "" ∧ (pySplitS text_content).length > 50 then text_content
        else feedFallback article
      | none => feedFallback article) = feedFallback article
    cases hfind : List.findSome? (fun sel => soup.find sel.1 sel.2) selectors with
    | none => rfl
    | some el =>
      have hlt' := hlt el hfind
      show (if collect_text el ≠ "" ∧ (pySplitS (collect_text el)).length > 50
          then collect_text el else feedFallback article) = feedFallback article
      rw [if_neg fun hcon => absurd hcon.2 (by omega)]

def entryC2 : Entry := { link := some "http://x", summary := some "an embedded summary" }

/-- Witness for the C2 theorem: a fetch failure on an entry carrying only a
summary returns that summary through the fallback chain. -/
theorem extractor_fallback_witness :
    (entryC2.link = some "http://x" ∧ "http://x" ≠ "" ∧
        baseEnv.fetch_page entryC2 = PageFetch.requestExc) ∧
      extract_article_content baseEnv entryC2 = feedFallback entryC2 :=
  ⟨⟨rfl, by decide, rfl⟩,
    extractor_fallback baseEnv entryC2 "http://x" rfl (by decide) (Or.inl rfl)⟩

def envC6 : Env := { baseEnv with fetch_page := fun _ => PageFetch.ok HtmlStage.exc }

def entryC6 : Entry := { link := some "http://y", summary := some "the summary text" }

/-- C6 counterexample: a parse exception inside the HTML handling returns
the empty string, not the feed-embedded fallback chain, which for this
entry would return its summary. -/
theorem extractor_parse_exc_not_fallback :
    extract_article_content envC6 entryC6 ≠ feedFallback entryC6 := by decide

/-- C6 (amended): with a truthy link present, the only case in which a
fetch happens at all, a RequestException during the page fetch is caught
and degrades to the feed-embedded fallback chain, while any other
exception in the HTML handling is caught and returns the empty string; in
both cases the extractor returns normally instead of propagating the
exception. -/
theorem extractor_exception_handling (env1 env2 : Env) (article : Entry) (l : String)
    (hl : article.link = some l) (hne : l ≠ "")
    (h1 : env1.fetch_page article = PageFetch.requestExc)
    (h2 : env2.fetch_page article = PageFetch.ok HtmlStage.exc) :
    extract_article_content env1 article = feedFallback article ∧
      extract_article_content env2 article = "" := by
  constructor
  · rw [extract_fetch_of_link env1 article l hl hne, h1]
  · rw [extract_fetch_of_link env2 article l hl hne, h2]

/-- Witness for the amended C6 theorem with both failure shapes realised. -/
theorem extractor_exception_handling_witness :
    (entryC6.link = some "http://y" ∧ "http://y" ≠ "" ∧
        baseEnv.fetch_page entryC6 = PageFetch.requestExc ∧
        envC6.fetch_page entryC6 = PageFetch.ok HtmlStage.exc) ∧
      (extract_article_content baseEnv entryC6 = feedFallback entryC6 ∧
        extract_article_content envC6 entryC6 = "") :=
  ⟨⟨rfl, by decide, rfl, rfl⟩,
    extractor_exception_handling baseEnv envC6 entryC6 "http://y" rfl (by decide) rfl rfl⟩

/-- C4: for input under the configured minimum word count analyze_content
returns the empty analysis, and for input at or above it the returned
basic_stats carries the number of word tokens, the number of sentence
tokens, and their quotient as average words per sentence, zero when there
are no sentences.  The configured minimum is positive. -/
theorem analyzer_threshold (env : Env) (content : String)
    (hmin : 0 < env.min_article_length) :
    ((pySplitS content).length < env.min_article_length →
        analyze_content env content = none) ∧
      (env.min_article_length ≤ (pySplitS content).length →
        ∃ stats, analyze_content env content = some stats ∧
          stats.word_count = (env.word_tokenize content).length ∧
          stats.sentence_count = (env.sent_tokenize content).length ∧
          (stats.sentence_count ≠ 0 →
            stats.avg_words_per_sentence =
              (stats.word_count : ℚ) / (stats.sentence_count : ℚ)) ∧
          (stats.sentence_count = 0 → stats.avg_words_per_sentence = 0)) := by
  constructor
  · intro hlt
    unfold analyze_content
    rw [if_pos (Or.inr hlt)]
  · intro hge
    have hco : ¬(content = "" ∨ (pySplitS content).length < env.min_article_length) := by
      rintro (hbl | hlt)
      · rw [hbl] at hge
        have h0 : (pySplitS "").length = 0 := rfl
        omega
      · omega
    refine ⟨⟨(env.word_tokenize content).length, (env.sent_tokenize content).length,
        if env.sent_tokenize content ≠ [] then
          ((env.word_tokenize content).length : ℚ) /
            ((env.sent_tokenize content).length : ℚ)
        else 0⟩, ?_, rfl, rfl, ?_, ?_⟩
    · unfold analyze_content
      rw [if_neg hco]
    · intro hne
      have hs : env.sent_tokenize content ≠ [] := by
        intro hnil
        apply hne
        show (env.sent_tokenize content).length = 0
        rw [hnil]
        rfl
      show (if env.sent_tokenize content ≠ [] then
          ((env.word_tokenize content).length : ℚ) /
            ((env.sent_tokenize content).length : ℚ)
        else 0) = ((env.word_tokenize content).length : ℚ) /
          ((env.sent_tokenize content).length : ℚ)
      rw [if_pos hs]
    · intro h0
      have hs : env.sent_tokenize content = [] := List.length_eq_zero.mp h0
      show (if env.sent_tokenize content ≠ [] then
          ((env.word_tokenize content).length : ℚ) /
            ((env.sent_tokenize content).length : ℚ)
        else 0) = 0
      rw [if_neg fun hne2 => hne2 hs]

def envC4 : Env := { baseEnv with
  min_article_length := 2
  sent_tokenize := fun s => pySplitS s
  word_tokenize := fun s => pySplitS s }

/-- Witness for the C4 theorem at a three-word input against a two-word
minimum. -/
theorem analyzer_threshold_witness :
    (0 < envC4.min_article_length) ∧
      (((pySplitS "one two three").length < envC4.min_article_length →
          analyze_content envC4 "one two three" = none) ∧
        (envC4.min_article_length ≤ (pySplitS "one two three").length →
          ∃ stats, analyze_content envC4 "one two three" = some stats ∧
            stats.word_count = (envC4.word_tokenize "one two three").length ∧
            stats.sentence_count = (envC4.sent_tokenize "one two three").length ∧
            (stats.sentence_count ≠ 0 →
              stats.avg_words_per_sentence =
                (stats.word_count : ℚ) / (stats.sentence_count : ℚ)) ∧
            (stats.sentence_count = 0 → stats.avg_words_per_sentence = 0))) :=
  ⟨by decide, analyzer_threshold envC4 "one two three" (by decide)⟩

/-- C5: appending to a missing batch file and appending again yields the
two articles in order, and appending to a batch file whose existing
content fails to parse yields exactly the new article, the corrupt content
being discarded rather than propagated. -/
theorem batch_append (A B : Article) :
    save_article (save_article FileState.absent A) B = FileState.good [A, B] ∧
      save_article FileState.corrupt A = FileState.good [A] := by
  constructor <;> rfl

/-- C9: after cleanup_old_files a name remains in the directory listing
exactly when it was there before and either is not a JSON file or is the
combined batch file of the current processing day; so the combined file is
untouched and every other JSON file is deleted. -/
theorem cleanup_keeps_only_combined (env : Env) (dir : List String) (f : String) :
    f ∈ cleanup_old_files env dir ↔
      f ∈ dir ∧ (isJsonFile f = true → f = combinedFileName env) := by
  unfold cleanup_old_files
  rw [List.mem_filter]
  constructor
  · rintro ⟨hmem, hcond⟩
    refine ⟨hmem, fun hj => ?_⟩
    rcases (Bool.or_eq_true _ _).mp hcond with hnot | heq
    · rw [Bool.not_eq_true'] at hnot
      rw [hj] at hnot
      cases hnot
    · exact beq_iff_eq.mp heq
  · rintro ⟨hmem, himp⟩
    refine ⟨hmem, ?_⟩
    by_cases hj : isJsonFile f = true
    · rw [himp hj]
      simp
    · rw [Bool.not_eq_true] at hj
      simp [hj]

theorem save_article_eq (st : FileState) (x : Article) :
    save_article st x = FileState.good (st.articles ++ [x]) := by
  cases st <;> rfl

theorem process_article_content_ne (env : Env) (article : Entry) (feed_url : String)
    (a : Article) (h : process_article env article feed_url = some a) :
    a.content ≠ "" := by
  simp only [process_article] at h
  by_cases hc : clean_content (extract_article_content env article) = ""
  · rw [if_pos hc] at h
    cases h
  · rw [if_neg hc] at h
    injection h with h2
    subst h2
    exact hc

theorem mem_process_entries (env : Env) (feed_url : String) (es : List Entry)
    (k : Nat) (st : FileState) (a : Article)
    (h : a ∈ (process_entries env feed_url es k st).articles) :
    a ∈ st.articles ∨ ∃ e ∈ es, is_article_from_yesterday env e = true ∧
      process_article env e feed_url = some a := by
  induction es generalizing k st with
  | nil => exact Or.inl h
  | cons e rest ih =>
    simp only [process_entries] at h
    by_cases hk : env.max_articles_per_feed ≤ k
    · rw [if_pos hk] at h
      exact Or.inl h
    · rw [if_neg hk] at h
      by_cases hf : is_article_from_yesterday env e = false
      · rw [if_pos hf] at h
        rcases ih k st h with h1 | ⟨e', he', hp⟩
        · exact Or.inl h1
        · exact Or.inr ⟨e', List.mem_cons_of_mem e he', hp⟩
      · rw [if_neg hf] at h
        have hft : is_article_from_yesterday env e = true := by
          revert hf
          cases is_article_from_yesterday env e <;> simp
        cases hpa : process_article env e feed_url with
        | none =>
          rw [hpa] at h
          rcases ih k st h with h1 | ⟨e', he', hp⟩
          · exact Or.inl h1
          · exact Or.inr ⟨e', List.mem_cons_of_mem e he', hp⟩
        | some ad =>
          rw [hpa] at h
          rcases ih (k + 1) (save_article st ad) h with h1 | ⟨e', he', hp⟩
          · rw [save_article_eq] at h1
            rcases List.mem_append.mp h1 with h2 | h2
            · exact Or.inl h2
            · have ha : a = ad := by simpa using h2
              subst ha
              exact Or.inr ⟨e, List.mem_cons_self e rest, hft, hpa⟩
          · exact Or.inr ⟨e', List.mem_cons_of_mem e he', hp⟩

theorem mem_process_feed_list (env : Env) (urls : List String) (st : FileState)
    (a : Article) (h : a ∈ (process_feed_list env urls st).articles) :
    a ∈ st.articles ∨ ∃ url ∈ urls, ∃ entries,
      env.fetch_feed url = some entries ∧ ∃ e ∈ entries,
        is_article_from_yesterday env e = true ∧
          process_article env e url = some a := by
  induction urls generalizing st with
  | nil => exact Or.inl h
  | cons url rest ih =>
    simp only [process_feed_list] at h
    cases hfe : env.fetch_feed url with
    | none =>
      rw [hfe] at h
      rcases ih st h with h1 | ⟨u, hu, es, hes, e, he, hf, hp⟩
      · exact Or.inl h1
      · exact Or.inr ⟨u, List.mem_cons_of_mem url hu, es, hes, e, he, hf, hp⟩
    | some entries =>
      rw [hfe] at h
      rcases ih (process_entries env url entries 0 st) h with
        h1 | ⟨u, hu, es, hes, e, he, hf, hp⟩
      · rcases mem_process_entries env url entries 0 st a h1 with h2 | ⟨e, he, hf, hp⟩
        · exact Or.inl h2
        · exact Or.inr ⟨url, List.mem_cons_self url rest, entries, hfe, e, he, hf, hp⟩
      · exact Or.inr ⟨u, List.mem_cons_of_mem url hu, es, hes, e, he, hf, hp⟩

/-- C8: every article readable from the batch file after process_feeds was
already in the file before the run, or has non-empty normalized content
and arises, through process_article, from an entry of a fetched feed that
passed the date-window filter; so no article with empty cleaned content
and no article from a rejected entry is ever persisted. -/
theorem persisted_article_invariant (env : Env) (st : FileState) (a : Article)
    (h : a ∈ (process_feeds env st).articles) :
    a ∈ st.articles ∨
      (a.content ≠ "" ∧ ∃ url ∈ env.feeds, ∃ entries,
        env.fetch_feed url = some entries ∧ ∃ e ∈ entries,
          is_article_from_yesterday env e = true ∧
            process_article env e url = some a) := by
  rcases mem_process_feed_list env env.feeds st a h with h1 | hrec
  · exact Or.inl h1
  · obtain ⟨u, hu, es, hes, e, he, hf, hp⟩ := hrec
    exact Or.inr ⟨process_article_content_ne env e u a hp, u, hu, es, hes, e, he, hf, hp⟩

def articleW : Article := {
  title := "t"
  link := "l"
  published := ""
  feed_url := "u"
  content := "c"
  analysis := none
  metadata := {
    processed_date := ""
    word_count := 1
    sentence_count := 0
    unique_words := 1
    language := "en"
    difficulty_level := "medium" } }

/-- Witness for the C8 theorem: with no feeds configured the run leaves
the batch file unchanged and the pre-existing article satisfies the
invariant through its first disjunct. -/
theorem persisted_article_invariant_witness :
    (articleW ∈ (process_feeds baseEnv (FileState.good [articleW])).articles) ∧
      (articleW ∈ (FileState.good [articleW] : FileState).articles ∨
        (articleW.content ≠ "" ∧ ∃ url ∈ baseEnv.feeds, ∃ entries,
          baseEnv.fetch_feed url = some entries ∧ ∃ e ∈ entries,
            is_article_from_yesterday baseEnv e = true ∧
              process_article baseEnv e url = some articleW)) :=
  ⟨by decide,
    persisted_article_invariant baseEnv (FileState.good [articleW]) articleW (by decide)⟩

/-- C10: the assembled article reads its published field only from the
published key of the entry, so an entry accepted by the date-window filter
through pubDate or updated is persisted with an empty published string
rather than the date string the filter used. -/
theorem published_only_from_published (env : Env) (article : Entry) (feed_url : String)
    (hp : article.published = none)
    (hacc : is_article_from_yesterday env article = true) :
    Option.elim (process_article env article feed_url) True
      (fun a => a.published = "") := by
  simp only [process_article]
  by_cases hc : clean_content (extract_article_content env article) = ""
  · rw [if_pos hc]
    trivial
  · rw [if_neg hc]
    show article.published.getD "" = ""
    rw [hp]
    rfl

def envC10 : Env := { baseEnv with
  parse_date := fun s => if s = "2026-10-10" then some 0 else none }

def entryC10 : Entry := {
  link := some "http://z"
  pubDate := some "2026-10-10"
  summary := some "hallo wereld" }

/-- Witness for the C10 theorem: an entry dated only through pubDate is
accepted by the filter, processed to an article, and persisted with an
empty published string. -/
theorem published_only_from_published_witness :
    (entryC10.published = none ∧
        is_article_from_yesterday envC10 entryC10 = true ∧
        (process_article envC10 entryC10 "http://feed").isSome = true) ∧
      Option.elim (process_article envC10 entryC10 "http://feed") True
        (fun a => a.published = "") :=
  ⟨⟨rfl, by decide, by decide⟩,
    published_only_from_published envC10 entryC10 "http://feed" rfl (by decide)⟩

end RSSProc
